import Mathlib

/-!
Shallow embedding of the gopub/sqlx mapping engine (Go package `sql`,
files `src/unnamed/part_000`, `src/unnamed/part_001`) and of the sqlite
key-value store (`src/sqlite/kv.go`).

Modelling conventions:
* Go `interface{}` field values are modelled by the inductive `Value`
  (integer family collapsed to `Int`, floats to `Rat`: no arithmetic is
  ever performed on them, they are only moved across the boundary).
* A record instance is a total map from column name to `Value`
  (Go's `reflect` field access by the cached index never fails).
* A driver parameter is `Option Value`: `none` is SQL NULL (Go `nil`).
* The executor (`t.exe`) is an oracle: Go's `database/sql` contract is
  that `Exec` returns a nil result exactly when it returns an error, and
  `Scan` either fails or delivers one row of cells.
* Go panics are modelled by the `Outcome.abort` constructor, recoverable
  `error` returns by `Outcome.fail`.
* Every operation also returns the list of statements it sent to the
  executor, so "issues no SQL" is expressible.
-/

namespace Sqlx

/-- Kinds of field values (Go reflect kinds, integer family collapsed). -/
inductive VKind : Type where
  | kint
  | kbool
  | kfloat
  | kstr
  | kbytes
deriving DecidableEq, Repr

/-- A field / driver value. -/
inductive Value : Type where
  | vint (n : Int)
  | vbool (b : Bool)
  | vfloat (x : Rat)
  | vstr (s : String)
  | vbytes (s : String)
deriving DecidableEq, Repr

/-- The reflect kind of a value. -/
def Value.kindOf : Value → VKind
  | .vint _ => .kint
  | .vbool _ => .kbool
  | .vfloat _ => .kfloat
  | .vstr _ => .kstr
  | .vbytes _ => .kbytes

/-- `reflect.Zero(reflect.TypeOf(k))`: the zero value of a value's own type. -/
def Value.zeroValue : Value → Value
  | .vint _ => .vint 0
  | .vbool _ => .vbool false
  | .vfloat _ => .vfloat 0
  | .vstr _ => .vstr ""
  | .vbytes _ => .vbytes ""

/-- The zero value of a kind (what `utils.DeepNew` leaves in a fresh field). -/
def VKind.zeroOf : VKind → Value
  | .kint => .vint 0
  | .kbool => .vbool false
  | .kfloat => .vfloat 0
  | .kstr => .vstr ""
  | .kbytes => .vbytes ""

/-- `reflect.Value.Int()` on an integer-kinded field (the auto-increment
field is integer-typed by the metadata invariant; on any other kind the
Go call would panic, which no claim exercises). -/
def Value.toInt : Value → Int
  | .vint n => n
  | _ => 0

/-- A record instance: column name ↦ current field value. -/
def Record : Type := String → Value

/-- Field read (`v.FieldByIndex(info.nameToIndex[name]).Interface()`). -/
def getField (r : Record) (n : String) : Value := r n

/-- Field write (`v.FieldByIndex(info.nameToIndex[name]).Set…`). -/
def setField (r : Record) (n : String) (v : Value) : Record :=
  fun m => if m = n then v else r m

/-- A driver parameter: `none` is SQL NULL. -/
def Param : Type := Option Value

/-- A statement sent to the executor: query text plus ordered parameters. -/
structure Stmt : Type where
  query : String
  args : List Param

/-- Result of a Go call: `ok` a normal return, `fail` a returned `error`,
`abort` a panic. -/
inductive Outcome (α : Type) : Type where
  | ok (a : α)
  | fail (e : String)
  | abort (m : String)
deriving Repr

/-- The text of `database/sql`'s `sql.ErrNoRows`. -/
def ErrNoRows : String := "sql: no rows in result set"

/-- `sql.Result` as used by the engine: only `LastInsertId` is consulted. -/
structure ExecResult : Type where
  lastInsertId : Except String Int

/-- The `executor` capability consumed by `Table` (declared outside src/;
its shape is fixed by the call sites and §6 of the spec).
`queryRow q args` bundles `QueryRow(...).Scan(...)`'s fetch: it either
fails (possibly with `ErrNoRows`) or delivers the row's raw cells in
column order. -/
structure Executor : Type where
  exec : String → List Param → Except String ExecResult
  query : String → List Param → Except String (List (List Param))
  queryRow : String → List Param → Except String (List Param)

/-- The `Table` struct from the source: executor, driver name, table name. -/
structure Table : Type where
  exe : Executor
  driverName : String
  name : String

/-- Column metadata (`columnInfo`). The deriving code (`getColumnInfo`)
is not under src/; the fields are those the source reads, with contents
as §3 of the spec describes them. `aiName = ""` means no auto-increment
column (the source tests `len(info.aiName) > 0`). -/
structure columnInfo : Type where
  names : List String
  aiName : String
  pkNames : List String
  jsonNames : List String
  nullableNames : List String

/-- Modelled from the spec: `columnInfo.notAINames`, the persisted
columns minus the auto-increment column, in metadata order (the caching
code that fills this field is not under src/). -/
def columnInfo.notAINames (info : columnInfo) : List String :=
  info.names.filter (fun n => n ≠ info.aiName)

/-- Modelled from the spec: `columnInfo.notPKNames`, the persisted
columns minus the primary-key columns, in metadata order (the caching
code that fills this field is not under src/). -/
def columnInfo.notPKNames (info : columnInfo) : List String :=
  info.names.filter (fun n => ¬ n ∈ info.pkNames)

/-- A schema: metadata plus each column's field kind (used by the
nullable-wrapper dispatch of the decode path). -/
structure Schema : Type where
  info : columnInfo
  kind : String → VKind

/-- The fresh zero instance `utils.DeepNew(elemType).Elem()`. -/
def zeroRecord (sch : Schema) : Record :=
  fun n => (sch.kind n).zeroOf

/-- `isEmpty` from the source: the four canonical empty JSON forms. -/
def isEmpty (jsonData : String) : Bool :=
  jsonData = "\x7b\x7d" || jsonData = "[]" || jsonData = "null" || jsonData = "NULL"

/-- `Table.getFieldValueByName`: the write-direction codec. `marshal`
is the external `json.Marshal`. -/
def getFieldValueByName (marshal : Value → Except String String)
    (item : Record) (info : columnInfo) (n : String) : Except String Param :=
  let k := getField item n
  if n ∈ info.jsonNames then
    match marshal k with
    | .error e => .error e
    | .ok data =>
      if n ∈ info.nullableNames ∧ isEmpty data then .ok none
      else .ok (some (.vbytes data))
  else
    if n ∈ info.nullableNames ∧ k = k.zeroValue then .ok none
    else .ok (some k)

/-- The encode loop shared by `prepareInsertQuery`, `Update` and
`mysqlSave`: encode each named column in order, stopping at the first
failure. -/
def collectValues (marshal : Value → Except String String)
    (item : Record) (info : columnInfo) : List String → Except String (List Param)
  | [] => .ok []
  | n :: rest =>
    match getFieldValueByName marshal item info n with
    | .error e => .error e
    | .ok p =>
      match collectValues marshal item info rest with
      | .error e => .error e
      | .ok ps => .ok (p :: ps)

/-- `strings.Repeat("?, ", n)`. -/
def placeholders : Nat → String
  | 0 => ""
  | n + 1 => "?, " ++ placeholders n

/-- `buf.Truncate(buf.Len()-2)`: drop the last two characters (the last
two bytes of the buffer are always ASCII here, so byte and character
truncation agree). -/
def truncate2 (s : String) : String := ⟨s.data.dropLast.dropLast⟩

/-- The column list chosen by `prepareInsertQuery`: when there is an
auto-increment column whose field is currently zero it is omitted. -/
def insertColumns (info : columnInfo) (r : Record) : List String :=
  if info.aiName.length > 0 ∧ (getField r info.aiName).toInt = 0 then
    info.notAINames
  else
    info.names

/-- The INSERT text built by `prepareInsertQuery`. -/
def insertQueryStr (tname : String) (cols : List String) : String :=
  truncate2 ("INSERT INTO " ++ tname ++ "(" ++ String.intercalate ", " cols
    ++ ") VALUES (" ++ placeholders cols.length) ++ ")"

/-- `Table.prepareInsertQuery`. -/
def Table.prepareInsertQuery (marshal : Value → Except String String)
    (t : Table) (info : columnInfo) (r : Record) :
    Except String (String × List Param) :=
  let columns := insertColumns info r
  match collectValues marshal r info columns with
  | .error e => .error e
  | .ok values => .ok (insertQueryStr t.name columns, values)

/-- `Table.Insert`. Returns the outcome (carrying the caller's record,
with the auto-increment field back-written on the success path) and the
statements issued. -/
def Table.Insert (marshal : Value → Except String String)
    (t : Table) (info : columnInfo) (r : Record) :
    Outcome Record × List Stmt :=
  match Table.prepareInsertQuery marshal t info r with
  | .error e => (.fail e, [])
  | .ok (q, values) =>
    match t.exe.exec q values with
    | .error e => (.fail e, [⟨q, values⟩])
    | .ok result =>
      if info.aiName.length > 0 ∧ (getField r info.aiName).toInt = 0 then
        match result.lastInsertId with
        | .error e => (.fail e, [⟨q, values⟩])
        | .ok id => (.ok (setField r info.aiName (.vint id)), [⟨q, values⟩])
      else
        (.ok r, [⟨q, values⟩])

/-- The `SET c1 = ?, c2 = ?` / `ON DUPLICATE KEY UPDATE` clause body. -/
def setClause (cols : List String) : String :=
  String.intercalate ", " (cols.map (fun c => c ++ " = ?"))

/-- The `WHERE pk1 = ? and pk2 = ?` clause body of `Update`. -/
def whereClause (cols : List String) : String :=
  String.intercalate " and " (cols.map (fun c => c ++ " = ?"))

/-- The primary-key argument tail of `Update`: raw field values, not run
through the codec (`v.FieldByIndex(...).Interface()` directly). -/
def pkArgs (r : Record) (info : columnInfo) : List Param :=
  info.pkNames.map (fun n => some (getField r n))

/-- `Table.Update`. -/
def Table.Update (marshal : Value → Except String String)
    (t : Table) (info : columnInfo) (r : Record) :
    Outcome Unit × List Stmt :=
  if info.pkNames = [] then
    (.abort "no primary key. please use Insert operation", [])
  else
    let q := "UPDATE " ++ t.name ++ " SET " ++ setClause info.notPKNames
      ++ " WHERE " ++ whereClause info.pkNames
    match collectValues marshal r info info.notPKNames with
    | .error e => (.fail e, [])
    | .ok vs =>
      let args := vs ++ pkArgs r info
      match t.exe.exec q args with
      | .error e => (.fail e, [⟨q, args⟩])
      | .ok _ => (.ok (), [⟨q, args⟩])

/-- `Table.mysqlSave`. The source reads `result` after `t.exe.Exec`
without checking the returned error first; per the `database/sql`
contract `result` is nil exactly when the error is non-nil, so when the
record's auto-increment field is zero and the executor fails, the call
to `result.LastInsertId()` dereferences a nil interface and panics. -/
def Table.mysqlSave (marshal : Value → Except String String)
    (t : Table) (info : columnInfo) (r : Record) :
    Outcome Record × List Stmt :=
  match Table.prepareInsertQuery marshal t info r with
  | .error e => (.fail e, [])
  | .ok (q0, values0) =>
    match collectValues marshal r info info.names with
    | .error e => (.fail e, [])
    | .ok upd =>
      let q := q0 ++ " ON DUPLICATE KEY UPDATE " ++ setClause info.names
      let values := values0 ++ upd
      match t.exe.exec q values with
      | .error e =>
        if info.aiName.length > 0 ∧ (getField r info.aiName).toInt = 0 then
          (.abort "runtime error: invalid memory address or nil pointer dereference",
            [⟨q, values⟩])
        else
          (.fail e, [⟨q, values⟩])
      | .ok result =>
        if info.aiName.length > 0 ∧ (getField r info.aiName).toInt = 0 then
          match result.lastInsertId with
          | .error e => (.fail e, [⟨q, values⟩])
          | .ok id => (.ok (setField r info.aiName (.vint id)), [⟨q, values⟩])
        else
          (.ok r, [⟨q, values⟩])

/-- `p.isPrefixOf s` on character lists, written out so the replacement
function below is self-contained. -/
def leadMatch : List Char → List Char → Bool
  | [], _ => true
  | _ :: _, [] => false
  | p :: ps, c :: cs => p = c && leadMatch ps cs

/-- `strings.Replace(s, pat, rep, 1)` for a non-empty `pat`: replace the
first occurrence of `pat` in `s` by `rep`. -/
def replaceFirstChars (pat rep : List Char) : List Char → List Char
  | [] => []
  | c :: cs =>
    if leadMatch pat (c :: cs) then rep ++ (c :: cs).drop pat.length
    else c :: replaceFirstChars pat rep cs

/-- `strings.Replace(s, pat, rep, 1)` at the string level. -/
def strReplaceFirst (s pat rep : String) : String :=
  ⟨replaceFirstChars pat.data rep.data s.data⟩

/-- `Table.sqliteSave`. Shares the unchecked-`result` slip of
`mysqlSave` (see there). -/
def Table.sqliteSave (marshal : Value → Except String String)
    (t : Table) (info : columnInfo) (r : Record) :
    Outcome Record × List Stmt :=
  match Table.prepareInsertQuery marshal t info r with
  | .error e => (.fail e, [])
  | .ok (q0, values) =>
    let q := strReplaceFirst q0 "INSERT INTO" "INSERT OR REPLACE INTO"
    match t.exe.exec q values with
    | .error e =>
      if info.aiName.length > 0 ∧ (getField r info.aiName).toInt = 0 then
        (.abort "runtime error: invalid memory address or nil pointer dereference",
          [⟨q, values⟩])
      else
        (.fail e, [⟨q, values⟩])
    | .ok result =>
      if info.aiName.length > 0 ∧ (getField r info.aiName).toInt = 0 then
        match result.lastInsertId with
        | .error e => (.fail e, [⟨q, values⟩])
        | .ok id => (.ok (setField r info.aiName (.vint id)), [⟨q, values⟩])
      else
        (.ok r, [⟨q, values⟩])

/-- `Table.Save`: dispatch on the driver name. -/
def Table.Save (marshal : Value → Except String String)
    (t : Table) (info : columnInfo) (r : Record) :
    Outcome Record × List Stmt :=
  match t.driverName with
  | "mysql" => Table.mysqlSave marshal t info r
  | "sqlite3" => Table.sqliteSave marshal t info r
  | _ => (.abort ("Save operation is not supported for driver: " ++ t.driverName), [])

/-- `Table.Delete`. -/
def Table.Delete (t : Table) (w : String) (args : List Param) :
    Outcome Unit × List Stmt :=
  if w.length = 0 then
    (.abort "where is empty", [])
  else
    let q := "DELETE FROM " ++ t.name ++ " WHERE " ++ w
    match t.exe.exec q args with
    | .error e => (.fail e, [⟨q, args⟩])
    | .ok _ => (.ok (), [⟨q, args⟩])

/-- `Table.Count`. -/
def Table.Count (t : Table) (w : String) (args : List Param) :
    Outcome Int × List Stmt :=
  let q := "SELECT COUNT(*) FROM " ++ t.name
    ++ (if w.length > 0 then " WHERE " ++ w else "")
  match t.exe.queryRow q args with
  | .error e => (.fail e, [⟨q, args⟩])
  | .ok row =>
    match row with
    | [some (.vint n)] => (.ok n, [⟨q, args⟩])
    | _ => (.fail "sql: Scan error", [⟨q, args⟩])

/-- What a column's scan destination received (the `fields[i]` slot):
a direct field address, a raw `[]byte` for a JSON column, or a nullable
scalar wrapper (`sql.NullInt64` and friends, `none` = not valid). -/
inductive Binding : Type where
  | direct (v : Value)
  | json (data : String)
  | nullable (w : Option Value)
deriving Repr

/-- Whether the binding loop can run without panicking: every nullable,
non-JSON column must have a scalar field kind (the `default` case of the
kind switch panics on anything else). -/
def bindingsOk (sch : Schema) : Bool :=
  sch.info.names.all (fun n =>
    decide (n ∈ sch.info.jsonNames) ||
    !(decide (n ∈ sch.info.nullableNames)) ||
    decide (sch.kind n ≠ .kbytes))

/-- Scan one cell into its binding. A JSON column binds `*[]byte`
(`Scan` accepts NULL as a nil slice and converts a string); a nullable
column binds the kind-matching wrapper (valid iff the cell is non-NULL
and of the right kind); any other column binds the field directly, so a
NULL or mis-kinded cell is a conversion error. -/
def scanCell (sch : Schema) (n : String) (c : Param) : Except String Binding :=
  if n ∈ sch.info.jsonNames then
    match c with
    | none => .ok (.json "")
    | some (.vbytes s) => .ok (.json s)
    | some (.vstr s) => .ok (.json s)
    | some _ => .error "sql: Scan error: incompatible type"
  else if n ∈ sch.info.nullableNames then
    match c with
    | none => .ok (.nullable none)
    | some v =>
      if v.kindOf = sch.kind n then .ok (.nullable (some v))
      else .error "sql: Scan error: incompatible type"
  else
    match c with
    | none => .error "sql: Scan error: converting NULL"
    | some v =>
      if v.kindOf = sch.kind n then .ok (.direct v)
      else .error "sql: Scan error: incompatible type"

/-- `rows.Scan(fields...)`: scan every cell, failing on the first bad
conversion. -/
def scanRow (sch : Schema) : List (String × Param) → Except String (List (String × Binding))
  | [] => .ok []
  | (n, c) :: rest =>
    match scanCell sch n c with
    | .error e => .error e
    | .ok b =>
      match scanRow sch rest with
      | .error e => .error e
      | .ok bs => .ok ((n, b) :: bs)

/-- `fields[IndexOfString(names, name)]` after the scan: the binding of
the first scanned column bearing this name. -/
def lookupBinding : List (String × Binding) → String → Option Binding
  | [], _ => none
  | (m, b) :: rest, n => if m = n then some b else lookupBinding rest n

/-- The raw cell fetched for a named column (first occurrence in column
order); bookkeeping used to state per-column decode facts. -/
def lookupCell : List (String × Param) → String → Option Param
  | [], _ => none
  | (m, c) :: rest, n => if m = n then some c else lookupCell rest n

/-- Apply the directly bound cells to the fresh record (this is what
`rows.Scan` itself wrote through the field addresses). -/
def applyDirect (bs : List (String × Binding)) (r : Record) : Record :=
  bs.foldl (fun acc p =>
    match p.2 with
    | .direct v => setField acc p.1 v
    | _ => acc) r

/-- The post-scan JSON loop: `json.Unmarshal` each JSON column's raw
bytes into the field, returning the first failure. `unmarshal` is the
external `json.Unmarshal` viewed as producing the decoded field value. -/
def applyJson (unmarshal : String → Except String Value)
    (bs : List (String × Binding)) : List String → Record → Except String Record
  | [], r => .ok r
  | n :: rest, r =>
    match lookupBinding bs n with
    | some (.json data) =>
      match unmarshal data with
      | .error e => .error e
      | .ok v => applyJson unmarshal bs rest (setField r n v)
    | _ => applyJson unmarshal bs rest r

/-- The post-scan nullable loop: copy each valid wrapper's scalar into
its field, leave invalid wrappers' fields at their zero value. A column
that is both JSON and nullable was bound as `*[]byte`, which falls into
the `default` case of the type switch and panics. -/
def applyNullable (bs : List (String × Binding)) :
    List String → Record → Outcome Record
  | [], r => .ok r
  | n :: rest, r =>
    match lookupBinding bs n with
    | some (.nullable none) => applyNullable bs rest r
    | some (.nullable (some v)) => applyNullable bs rest (setField r n v)
    | _ => .abort "invalid type"

/-- Decode one fetched row into a fresh zero record: scan, then the JSON
loop, then the nullable loop. -/
def decodeRow (unmarshal : String → Except String Value)
    (sch : Schema) (row : List Param) : Outcome Record :=
  if row.length ≠ sch.info.names.length then
    .fail "sql: expected different number of destination arguments"
  else
    match scanRow sch (sch.info.names.zip row) with
    | .error e => .fail e
    | .ok bs =>
      let r0 := applyDirect bs (zeroRecord sch)
      match applyJson unmarshal bs sch.info.jsonNames r0 with
      | .error e => .fail e
      | .ok r1 => applyNullable bs sch.info.nullableNames r1

/-- `SELECT <columns> FROM <table> [WHERE <predicate>]`. -/
def selQuery (t : Table) (info : columnInfo) (w : String) : String :=
  "SELECT " ++ String.intercalate ", " info.names ++ " FROM " ++ t.name
    ++ (if w.length > 0 then " WHERE " ++ w else "")

/-- Result of `Table.SelectOne`: outcome, the caller's record after the
call, and the statements issued. -/
structure SelOneRes : Type where
  out : Outcome Unit
  target : Record
  issued : List Stmt

/-- `Table.SelectOne`. The decode target is the scratch instance
`ev := utils.DeepNew(...)`; the caller's record is overwritten only
after every step succeeded. The binding loop runs before the query is
sent, so an unmappable nullable kind panics without issuing SQL. -/
def Table.SelectOne (unmarshal : String → Except String Value)
    (t : Table) (sch : Schema) (r0 : Record) (w : String) (args : List Param) :
    SelOneRes :=
  if ¬ bindingsOk sch then
    ⟨.abort "invalid nullable type", r0, []⟩
  else
    let q := selQuery t sch.info w
    match t.exe.queryRow q args with
    | .error e => ⟨.fail e, r0, [⟨q, args⟩]⟩
    | .ok row =>
      match decodeRow unmarshal sch row with
      | .fail e => ⟨.fail e, r0, [⟨q, args⟩]⟩
      | .abort m => ⟨.abort m, r0, [⟨q, args⟩]⟩
      | .ok ev => ⟨.ok (), ev, [⟨q, args⟩]⟩

/-- Result of `Table.Select`: outcome, the caller's slice after the call
(`none` is a nil slice), and the statements issued. -/
structure SelListRes : Type where
  out : Outcome Unit
  slice : Option (List Record)
  issued : List Stmt

/-- The row loop of `Table.Select`: decode each row into a fresh record
and append it to the accumulated slice, stopping at the first failure.
The binding switch runs per row, so it can panic per row. -/
def selectLoop (unmarshal : String → Except String Value) (sch : Schema) :
    List (List Param) → List Record → Outcome (List Record)
  | [], acc => .ok acc
  | row :: rest, acc =>
    if ¬ bindingsOk sch then .abort "invalid nullable type"
    else
      match decodeRow unmarshal sch row with
      | .fail e => .fail e
      | .abort m => .abort m
      | .ok rec => selectLoop unmarshal sch rest (acc ++ [rec])

/-- `Table.Select`. The guard `if v.IsNil() { v.Set(...) }` in the
source tests the *pointer* for nil — a nil pointer already panicked two
lines earlier — so it never fires: a nil destination slice is only made
non-nil by appending a decoded row (`reflect.Append`). The locally grown
slice is written back to the caller only after the loop finishes, so on
any failure the caller's slice is exactly what was passed in. -/
def Table.Select (unmarshal : String → Except String Value)
    (t : Table) (sch : Schema) (s0 : Option (List Record))
    (w : String) (args : List Param) : SelListRes :=
  let q := selQuery t sch.info w
  match t.exe.query q args with
  | .error e => ⟨.fail e, s0, [⟨q, args⟩]⟩
  | .ok rows =>
    match selectLoop unmarshal sch rows (s0.getD []) with
    | .fail e => ⟨.fail e, s0, [⟨q, args⟩]⟩
    | .abort m => ⟨.abort m, s0, [⟨q, args⟩]⟩
    | .ok final =>
      match s0, final with
      | none, [] => ⟨.ok (), none, [⟨q, args⟩]⟩
      | _, _ => ⟨.ok (), some final, [⟨q, args⟩]⟩

/-!
Key-value store (`src/sqlite/kv.go`). The database is an abstract state
`σ` driven by an exec oracle; a failed REPLACE leaves the state as it
was. Each save operation returns the new state and the statements it
issued — and nothing else: the Go functions have no return value, so a
failure (logged and dropped) is invisible to the caller.
-/

/-- The REPLACE statement text shared by all KVStore save operations. -/
def kvReplaceQuery : String := "REPLACE INTO kv(k,v,updated_at) VALUES(?1,?2,?3)"

/-- `KVStore.SaveInt64`: `fmt.Sprint(val)` stringifies the integer. On
executor failure the error is logged and swallowed. -/
def KVStore.SaveInt64 {σ : Type} (dbExec : Stmt → σ → Except String σ)
    (now : Int) (st : σ) (key : String) (val : Int) : σ × List Stmt :=
  let stmt : Stmt := ⟨kvReplaceQuery,
    [some (.vstr key), some (.vstr (toString val)), some (.vint now)]⟩
  match dbExec stmt st with
  | .error _ => (st, [stmt])
  | .ok st2 => (st2, [stmt])

/-- `KVStore.SaveData`. On executor failure the error is logged and
swallowed. -/
def KVStore.SaveData {σ : Type} (dbExec : Stmt → σ → Except String σ)
    (now : Int) (st : σ) (key : String) (data : String) : σ × List Stmt :=
  let stmt : Stmt := ⟨kvReplaceQuery,
    [some (.vstr key), some (.vbytes data), some (.vint now)]⟩
  match dbExec stmt st with
  | .error _ => (st, [stmt])
  | .ok st2 => (st2, [stmt])

/-- `KVStore.SaveString`: delegates to `SaveData` on the string's bytes. -/
def KVStore.SaveString {σ : Type} (dbExec : Stmt → σ → Except String σ)
    (now : Int) (st : σ) (key : String) (s : String) : σ × List Stmt :=
  KVStore.SaveData dbExec now st key s

/-- `KVStore.SavePB`: `proto.Marshal` may fail, in which case the
failure is logged and no statement is issued; otherwise as `SaveData`.
`marshalled` is the oracle result of `proto.Marshal(msg)`. -/
def KVStore.SavePB {σ : Type} (dbExec : Stmt → σ → Except String σ)
    (now : Int) (st : σ) (key : String)
    (marshalled : Except String String) : σ × List Stmt :=
  match marshalled with
  | .error _ => (st, [])
  | .ok data =>
    let stmt : Stmt := ⟨kvReplaceQuery,
      [some (.vstr key), some (.vbytes data), some (.vint now)]⟩
    match dbExec stmt st with
    | .error _ => (st, [stmt])
    | .ok st2 => (st2, [stmt])

/-- `KVStore.SaveJSON`: the value parameter is `sql.JSON(obj)` (`none`
when the object is nil, otherwise the driver-level JSON holder, whose
serialization failure surfaces as an exec error). On failure the error
is logged and swallowed. -/
def KVStore.SaveJSON {σ : Type} (dbExec : Stmt → σ → Except String σ)
    (now : Int) (st : σ) (key : String) (jsonArg : Param) : σ × List Stmt :=
  let stmt : Stmt := ⟨kvReplaceQuery,
    [some (.vstr key), jsonArg, some (.vint now)]⟩
  match dbExec stmt st with
  | .error _ => (st, [stmt])
  | .ok st2 => (st2, [stmt])

/-! ## Theorems -/

/-- C8: `Delete` with an empty predicate panics ("where is empty") and
issues no SQL; with a non-empty predicate it issues exactly the one
statement `DELETE FROM <table> WHERE <predicate>`. -/
theorem delete_empty_predicate_aborts (t : Table) (w : String) (args : List Param) :
    (w.length = 0 →
      Table.Delete t w args = (.abort "where is empty", [])) ∧
    (w.length ≠ 0 →
      (Table.Delete t w args).2 =
        [⟨"DELETE FROM " ++ t.name ++ " WHERE " ++ w, args⟩]) := by
  constructor
  · intro h
    simp [Table.Delete, h]
  · intro h
    simp only [Table.Delete, if_neg h]
    cases t.exe.exec ("DELETE FROM " ++ t.name ++ " WHERE " ++ w) args <;> rfl

/-- Witness for C8 at concrete inputs: both the empty- and the
non-empty-predicate branches. -/
theorem delete_empty_predicate_aborts_witness :
    (Table.Delete ⟨⟨fun _ _ => .ok ⟨.ok 1⟩, fun _ _ => .ok [], fun _ _ => .error ErrNoRows⟩,
        "sqlite3", "users"⟩ "" [] = (.abort "where is empty", [])) ∧
    ((Table.Delete ⟨⟨fun _ _ => .ok ⟨.ok 1⟩, fun _ _ => .ok [], fun _ _ => .error ErrNoRows⟩,
        "sqlite3", "users"⟩ "id = ?" [some (.vint 3)]).2 =
      [⟨"DELETE FROM users WHERE id = ?", [some (.vint 3)]⟩]) := by
  refine ⟨(delete_empty_predicate_aborts _ "" []).1 (by decide), ?_⟩
  exact (delete_empty_predicate_aborts _ "id = ?" [some (.vint 3)]).2 (by decide)

/-- C5: for a JSON-encoded, nullable column the codec emits SQL NULL
exactly when the serialized form is one of `{}`, `[]`, `null`, `NULL`;
any other serialized form is emitted as the bytes themselves, and a
JSON column that is not nullable always yields the bytes. -/
theorem json_nullable_null_iff_empty (marshal : Value → Except String String)
    (r : Record) (info : columnInfo) (n : String) (data : String)
    (hj : n ∈ info.jsonNames)
    (hm : marshal (getField r n) = .ok data) :
    (n ∈ info.nullableNames →
      (getFieldValueByName marshal r info n = .ok none ↔
        (data = "\x7b\x7d" ∨ data = "[]" ∨ data = "null" ∨ data = "NULL"))) ∧
    (n ∈ info.nullableNames →
      isEmpty data = false →
      getFieldValueByName marshal r info n = .ok (some (.vbytes data))) ∧
    (n ∉ info.nullableNames →
      getFieldValueByName marshal r info n = .ok (some (.vbytes data))) := by
  refine ⟨fun hn => ?_, fun hn he => ?_, fun hn => ?_⟩
  · simp only [getFieldValueByName, if_pos hj, hm]
    by_cases hemp : isEmpty data = true
    · rw [if_pos ⟨hn, hemp⟩]
      simp only [isEmpty, Bool.or_eq_true, decide_eq_true_eq] at hemp
      simp only [true_iff, eq_self_iff_true]
      tauto
    · rw [if_neg (fun hc => hemp hc.2)]
      have : ¬ (data = "\x7b\x7d" ∨ data = "[]" ∨ data = "null" ∨ data = "NULL") := by
        intro hc
        apply hemp
        simp only [isEmpty, Bool.or_eq_true, decide_eq_true_eq]
        tauto
      simp [this]
  · simp only [getFieldValueByName, if_pos hj, hm]
    rw [if_neg (fun hc => by simp [he] at hc)]
  · simp only [getFieldValueByName, if_pos hj, hm]
    rw [if_neg (fun hc => hn hc.1)]

/-- Witness for C5: a record whose `tags` column serializes to `[]`. -/
theorem json_nullable_null_iff_empty_witness :
    getFieldValueByName (fun _ => .ok "[]") (fun _ => .vstr "x")
      ⟨["tags"], "", [], ["tags"], ["tags"]⟩ "tags" = .ok none := by
  have h := json_nullable_null_iff_empty (fun _ => .ok "[]") (fun _ => .vstr "x")
    ⟨["tags"], "", [], ["tags"], ["tags"]⟩ "tags" "[]" (by decide) rfl
  exact (h.1 (by decide)).2 (Or.inr (Or.inl rfl))

/-- C10: every KVStore save operation returns only the (possibly
unchanged) store state: a failing REPLACE is logged and swallowed, the
state is exactly what it was, and a failing protobuf marshal in `SavePB`
issues no statement at all. The Lean return types mirror the Go
signatures: there is no error channel for a caller to observe. -/
theorem kv_save_swallows_failures {σ : Type} (dbExec : Stmt → σ → Except String σ)
    (now : Int) (st : σ) (key : String) (val : Int) (data : String)
    (jsonArg : Param) (e : String) :
    ((dbExec ⟨kvReplaceQuery, [some (.vstr key), some (.vstr (toString val)), some (.vint now)]⟩ st
        = .error e →
      KVStore.SaveInt64 dbExec now st key val =
        (st, [⟨kvReplaceQuery, [some (.vstr key), some (.vstr (toString val)), some (.vint now)]⟩])) ∧
     (dbExec ⟨kvReplaceQuery, [some (.vstr key), some (.vbytes data), some (.vint now)]⟩ st
        = .error e →
      KVStore.SaveData dbExec now st key data =
        (st, [⟨kvReplaceQuery, [some (.vstr key), some (.vbytes data), some (.vint now)]⟩]) ∧
      KVStore.SaveString dbExec now st key data =
        (st, [⟨kvReplaceQuery, [some (.vstr key), some (.vbytes data), some (.vint now)]⟩])) ∧
     (dbExec ⟨kvReplaceQuery, [some (.vstr key), jsonArg, some (.vint now)]⟩ st
        = .error e →
      KVStore.SaveJSON dbExec now st key jsonArg =
        (st, [⟨kvReplaceQuery, [some (.vstr key), jsonArg, some (.vint now)]⟩])) ∧
     (KVStore.SavePB dbExec now st key (.error e) = (st, []))) := by
  refine ⟨fun h => ?_, fun h => ⟨?_, ?_⟩, fun h => ?_, ?_⟩
  · simp [KVStore.SaveInt64, h]
  · simp [KVStore.SaveData, h]
  · simp [KVStore.SaveString, KVStore.SaveData, h]
  · simp [KVStore.SaveJSON, h]
  · simp [KVStore.SavePB]

/-- Witness for C10 with an always-failing store (state `Nat`). -/
theorem kv_save_swallows_failures_witness :
    KVStore.SaveInt64 (σ := Nat) (fun _ _ => .error "disk full") 5 0 "k" 42 =
      (0, [⟨kvReplaceQuery, [some (.vstr "k"), some (.vstr "42"), some (.vint 5)]⟩]) ∧
    KVStore.SavePB (σ := Nat) (fun _ _ => .error "disk full") 5 0 "k" (.error "marshal") =
      (0, []) := by
  have h := kv_save_swallows_failures (σ := Nat) (fun _ _ => .error "disk full")
    5 0 "k" 42 "d" none "disk full"
  exact ⟨h.1 rfl, h.2.2.2⟩

/-- C1: with a zero-valued auto-increment field, `Insert` omits that
column from the column list and, after the executor succeeds, writes
the last-insert id back into the field; with a non-zero field the
column list is the full persisted list, the column's parameter is its
current value, and the record is returned unmodified. -/
theorem insert_autoincrement (marshal : Value → Except String String)
    (t : Table) (info : columnInfo) (r : Record) (k : Int)
    (hai : 0 < info.aiName.length)
    (hmem : info.aiName ∈ info.names)
    (hnj : info.aiName ∉ info.jsonNames)
    (hfield : getField r info.aiName = .vint k) :
    (k = 0 →
      info.aiName ∉ insertColumns info r ∧
      ∀ q values result id,
        Table.prepareInsertQuery marshal t info r = .ok (q, values) →
        t.exe.exec q values = .ok result →
        result.lastInsertId = .ok id →
        Table.Insert marshal t info r =
          (.ok (setField r info.aiName (.vint id)), [⟨q, values⟩]) ∧
        getField (setField r info.aiName (.vint id)) info.aiName = .vint id) ∧
    (k ≠ 0 →
      insertColumns info r = info.names ∧
      info.aiName ∈ insertColumns info r ∧
      getFieldValueByName marshal r info info.aiName = .ok (some (.vint k)) ∧
      ∀ q values result,
        Table.prepareInsertQuery marshal t info r = .ok (q, values) →
        t.exe.exec q values = .ok result →
        Table.Insert marshal t info r = (.ok r, [⟨q, values⟩])) := by
  constructor
  · intro hk
    subst hk
    have hcond : 0 < info.aiName.length ∧ (getField r info.aiName).toInt = 0 :=
      ⟨hai, by rw [hfield]; rfl⟩
    constructor
    · simp only [insertColumns, if_pos hcond, columnInfo.notAINames, List.mem_filter]
      intro hc
      exact absurd hc.2 (by simp)
    · intro q values result id hprep hexec hid
      constructor
      · simp only [Table.Insert, hprep, hexec, if_pos hcond, hid]
      · simp [getField, setField]
  · intro hk
    have hcond : ¬ (0 < info.aiName.length ∧ (getField r info.aiName).toInt = 0) := by
      intro hc
      apply hk
      have := hc.2
      rw [hfield] at this
      exact this
    have hcols : insertColumns info r = info.names := by
      simp only [insertColumns, if_neg hcond]
    refine ⟨hcols, by rw [hcols]; exact hmem, ?_, ?_⟩
    · simp only [getFieldValueByName, if_neg hnj, getField] at *
      rw [hfield]
      rw [if_neg ?_]
      intro hc
      have := hc.2
      simp only [Value.zeroValue, Value.vint.injEq] at this
      exact hk this
    · intro q values result hprep hexec
      simp only [Table.Insert, hprep, hexec, if_neg hcond]

/-- Witness for C1: a two-column table `(id auto-increment, name)`,
exercised once with `id = 0` (back-write of the generated id 7) and
once with `id = 5` (full column list, record unchanged). -/
theorem insert_autoincrement_witness :
    ("id" ∉ insertColumns ⟨["id", "name"], "id", ["id"], [], []⟩
        (fun n => if n = "name" then .vstr "a" else .vint 0)) ∧
    (Table.Insert (fun _ => .ok "x")
        ⟨⟨fun _ _ => .ok ⟨.ok 7⟩, fun _ _ => .ok [], fun _ _ => .error ErrNoRows⟩, "mysql", "users"⟩
        ⟨["id", "name"], "id", ["id"], [], []⟩
        (fun n => if n = "name" then .vstr "a" else .vint 0) =
      (.ok (setField (fun n => if n = "name" then .vstr "a" else .vint 0) "id" (.vint 7)),
        [⟨insertQueryStr "users"
            (insertColumns ⟨["id", "name"], "id", ["id"], [], []⟩
              (fun n => if n = "name" then .vstr "a" else .vint 0)),
          [some (.vstr "a")]⟩])) ∧
    (insertColumns ⟨["id", "name"], "id", ["id"], [], []⟩
        (fun n => if n = "name" then .vstr "a" else .vint 5) = ["id", "name"]) ∧
    (Table.Insert (fun _ => .ok "x")
        ⟨⟨fun _ _ => .ok ⟨.ok 7⟩, fun _ _ => .ok [], fun _ _ => .error ErrNoRows⟩, "mysql", "users"⟩
        ⟨["id", "name"], "id", ["id"], [], []⟩
        (fun n => if n = "name" then .vstr "a" else .vint 5) =
      (.ok (fun n => if n = "name" then .vstr "a" else .vint 5),
        [⟨insertQueryStr "users"
            (insertColumns ⟨["id", "name"], "id", ["id"], [], []⟩
              (fun n => if n = "name" then .vstr "a" else .vint 5)),
          [some (.vint 5), some (.vstr "a")]⟩])) := by
  have h0 := insert_autoincrement (fun _ => .ok "x")
    ⟨⟨fun _ _ => .ok ⟨.ok 7⟩, fun _ _ => .ok [], fun _ _ => .error ErrNoRows⟩, "mysql", "users"⟩
    ⟨["id", "name"], "id", ["id"], [], []⟩
    (fun n => if n = "name" then .vstr "a" else .vint 0) 0
    (by decide) (by decide) (by decide) rfl
  have h5 := insert_autoincrement (fun _ => .ok "x")
    ⟨⟨fun _ _ => .ok ⟨.ok 7⟩, fun _ _ => .ok [], fun _ _ => .error ErrNoRows⟩, "mysql", "users"⟩
    ⟨["id", "name"], "id", ["id"], [], []⟩
    (fun n => if n = "name" then .vstr "a" else .vint 5) 5
    (by decide) (by decide) (by decide) rfl
  have h0a := (h0.1 rfl).1
  have h0b := ((h0.1 rfl).2 _ [some (.vstr "a")] ⟨.ok 7⟩ 7 rfl rfl rfl).1
  have h5a := (h5.2 (by decide)).1
  have h5b := (h5.2 (by decide)).2.2.2 _ [some (.vint 5), some (.vstr "a")] ⟨.ok 7⟩ rfl rfl
  exact ⟨h0a, h0b, h5a, h5b⟩

/-- C7: with at least one primary-key column, `Update` issues exactly
one statement `UPDATE <table> SET <non-pk columns> WHERE <pk
conjunction>` whose parameters are the encoded non-primary-key values
(metadata column order) followed by the raw primary-key values
(metadata primary-key order); with none it panics with "no primary key"
and issues no SQL. -/
theorem update_requires_primary_key (marshal : Value → Except String String)
    (t : Table) (info : columnInfo) (r : Record) :
    (info.pkNames = [] →
      Table.Update marshal t info r =
        (.abort "no primary key. please use Insert operation", [])) ∧
    (info.pkNames ≠ [] →
      ∀ vs, collectValues marshal r info info.notPKNames = .ok vs →
        (Table.Update marshal t info r).2 =
          [⟨"UPDATE " ++ t.name ++ " SET " ++ setClause info.notPKNames
              ++ " WHERE " ++ whereClause info.pkNames, vs ++ pkArgs r info⟩]) := by
  constructor
  · intro h
    simp [Table.Update, h]
  · intro h vs hvs
    simp only [Table.Update, if_neg h, hvs]
    cases t.exe.exec ("UPDATE " ++ t.name ++ " SET " ++ setClause info.notPKNames
      ++ " WHERE " ++ whereClause info.pkNames) (vs ++ pkArgs r info) <;> rfl

/-- Witness for C7: the no-primary-key abort and a one-pk-column update
statement at concrete inputs. -/
theorem update_requires_primary_key_witness :
    (Table.Update (fun _ => .ok "x")
        ⟨⟨fun _ _ => .ok ⟨.ok 1⟩, fun _ _ => .ok [], fun _ _ => .error ErrNoRows⟩, "mysql", "users"⟩
        ⟨["name"], "", [], [], []⟩ (fun _ => .vstr "a") =
      (.abort "no primary key. please use Insert operation", [])) ∧
    ((Table.Update (fun _ => .ok "x")
        ⟨⟨fun _ _ => .ok ⟨.ok 1⟩, fun _ _ => .ok [], fun _ _ => .error ErrNoRows⟩, "mysql", "users"⟩
        ⟨["id", "name"], "", ["id"], [], []⟩
        (fun n => if n = "name" then .vstr "a" else .vint 5)).2 =
      [⟨"UPDATE users SET " ++ setClause (columnInfo.notPKNames ⟨["id", "name"], "", ["id"], [], []⟩)
          ++ " WHERE " ++ whereClause ["id"],
        ([some (.vstr "a")] : List Param) ++ pkArgs (fun n => if n = "name" then .vstr "a" else .vint 5)
          ⟨["id", "name"], "", ["id"], [], []⟩⟩]) := by
  have ha := update_requires_primary_key (fun _ => .ok "x")
    ⟨⟨fun _ _ => .ok ⟨.ok 1⟩, fun _ _ => .ok [], fun _ _ => .error ErrNoRows⟩, "mysql", "users"⟩
    ⟨["name"], "", [], [], []⟩ (fun _ => .vstr "a")
  have hb := update_requires_primary_key (fun _ => .ok "x")
    ⟨⟨fun _ _ => .ok ⟨.ok 1⟩, fun _ _ => .ok [], fun _ _ => .error ErrNoRows⟩, "mysql", "users"⟩
    ⟨["id", "name"], "", ["id"], [], []⟩
    (fun n => if n = "name" then .vstr "a" else .vint 5)
  exact ⟨ha.1 rfl, hb.2 (by decide) ([some (.vstr "a")] : List Param) rfl⟩

theorem leadMatch_append (p l : List Char) : leadMatch p (p ++ l) = true := by
  induction p with
  | nil => rfl
  | cons c cs ih => simp [leadMatch, ih]

theorem replaceFirstChars_append (pat rep l : List Char) (h : pat ≠ []) :
    replaceFirstChars pat rep (pat ++ l) = rep ++ l := by
  cases pat with
  | nil => exact absurd rfl h
  | cons c cs =>
    rw [List.cons_append, replaceFirstChars, if_pos]
    · rw [← List.cons_append, List.drop_left]
    · rw [← List.cons_append]
      exact leadMatch_append (c :: cs) l

theorem strReplaceFirst_prefix (pat rep rest : String) (h : pat.data ≠ []) :
    strReplaceFirst (pat ++ rest) pat rep = rep ++ rest := by
  unfold strReplaceFirst
  rw [String.data_append, replaceFirstChars_append _ _ _ h]
  show (⟨rep.data ++ rest.data⟩ : String) = rep ++ rest
  rw [← String.data_append]

theorem truncate2_append (a b : String) (h : 2 ≤ b.data.length) :
    truncate2 (a ++ b) = a ++ truncate2 b := by
  unfold truncate2
  rw [String.data_append]
  have hb : b.data ≠ [] := by
    intro hc
    rw [hc] at h
    simp at h
  rw [List.dropLast_append_of_ne_nil _ hb]
  have hb2 : b.data.dropLast ≠ [] := by
    intro hc
    have hlen := congrArg List.length hc
    rw [List.length_dropLast] at hlen
    simp only [List.length_nil] at hlen
    omega
  rw [List.dropLast_append_of_ne_nil _ hb2]
  rfl

/-- The INSERT text always starts with `INSERT INTO`; this names the
remainder explicitly. -/
theorem insertQueryStr_split (tname : String) (cols : List String) :
    insertQueryStr tname cols =
      "INSERT INTO" ++ (" " ++ (tname ++ ("(" ++ (String.intercalate ", " cols ++
        (truncate2 (") VALUES (" ++ placeholders cols.length) ++ ")"))))) := by
  unfold insertQueryStr
  have h2 : 2 ≤ (") VALUES (" ++ placeholders cols.length).data.length := by
    rw [String.data_append, List.length_append]
    have h10 : (") VALUES (" : String).data.length = 10 := by decide
    omega
  rw [String.append_assoc ("INSERT INTO " ++ tname ++ "(" ++ String.intercalate ", " cols)
    ") VALUES (" (placeholders cols.length)]
  rw [truncate2_append _ _ h2]
  rw [show ("INSERT INTO " : String) = "INSERT INTO" ++ " " from rfl]
  simp only [String.append_assoc]

/-- C3: `Save` dispatches on the driver identifier. MySQL: the Insert
statement suffixed with `ON DUPLICATE KEY UPDATE` listing every
persisted column. SQLite: the leading `INSERT INTO` rewritten to
`INSERT OR REPLACE INTO`. Any other driver: an immediate unsupported
panic with no SQL issued. -/
theorem save_driver_dispatch (marshal : Value → Except String String)
    (t : Table) (info : columnInfo) (r : Record) :
    (t.driverName = "mysql" →
      ∀ q0 values upd,
        Table.prepareInsertQuery marshal t info r = .ok (q0, values) →
        collectValues marshal r info info.names = .ok upd →
        (Table.Save marshal t info r).2 =
          [⟨q0 ++ " ON DUPLICATE KEY UPDATE " ++ setClause info.names, values ++ upd⟩]) ∧
    (t.driverName = "sqlite3" →
      ∀ q0 values,
        Table.prepareInsertQuery marshal t info r = .ok (q0, values) →
        ∃ rest, q0 = "INSERT INTO" ++ rest ∧
          (Table.Save marshal t info r).2 = [⟨"INSERT OR REPLACE INTO" ++ rest, values⟩]) ∧
    (t.driverName ≠ "mysql" → t.driverName ≠ "sqlite3" →
      Table.Save marshal t info r =
        (.abort ("Save operation is not supported for driver: " ++ t.driverName), [])) := by
  refine ⟨fun hm q0 values upd hprep hupd => ?_, fun hs q0 values hprep => ?_,
    fun h1 h2 => ?_⟩
  · unfold Table.Save
    rw [hm]
    simp only [Table.mysqlSave, hprep, hupd]
    cases t.exe.exec (q0 ++ " ON DUPLICATE KEY UPDATE " ++ setClause info.names)
        (values ++ upd) with
    | error e =>
      by_cases hc : 0 < info.aiName.length ∧ (getField r info.aiName).toInt = 0
      · simp only [if_pos hc]
      · simp only [if_neg hc]
    | ok result =>
      by_cases hc : 0 < info.aiName.length ∧ (getField r info.aiName).toInt = 0
      · simp only [if_pos hc]
        cases result.lastInsertId <;> rfl
      · simp only [if_neg hc]
  · have hq0 : q0 = insertQueryStr t.name (insertColumns info r) := by
      simp only [Table.prepareInsertQuery] at hprep
      cases hcv : collectValues marshal r info (insertColumns info r) with
      | error e => rw [hcv] at hprep; exact absurd hprep (by simp)
      | ok vs =>
        rw [hcv] at hprep
        simp only [Except.ok.injEq, Prod.mk.injEq] at hprep
        exact hprep.1.symm
    refine ⟨" " ++ (t.name ++ ("(" ++ (String.intercalate ", " (insertColumns info r) ++
      (truncate2 (") VALUES (" ++ placeholders (insertColumns info r).length) ++ ")")))), ?_, ?_⟩
    · rw [hq0, insertQueryStr_split]
    · unfold Table.Save
      rw [hs]
      simp only [Table.sqliteSave, hprep]
      have hrepl : strReplaceFirst q0 "INSERT INTO" "INSERT OR REPLACE INTO" =
          "INSERT OR REPLACE INTO" ++ (" " ++ (t.name ++ ("(" ++
            (String.intercalate ", " (insertColumns info r) ++
              (truncate2 (") VALUES (" ++ placeholders (insertColumns info r).length)
                ++ ")"))))) := by
        rw [hq0, insertQueryStr_split]
        exact strReplaceFirst_prefix "INSERT INTO" "INSERT OR REPLACE INTO" _ (by decide)
      rw [hrepl]
      cases t.exe.exec ("INSERT OR REPLACE INTO" ++ (" " ++ (t.name ++ ("(" ++
          (String.intercalate ", " (insertColumns info r) ++
            (truncate2 (") VALUES (" ++ placeholders (insertColumns info r).length)
              ++ ")")))))) values with
      | error e =>
        by_cases hc : 0 < info.aiName.length ∧ (getField r info.aiName).toInt = 0
        · simp only [if_pos hc]
        · simp only [if_neg hc]
      | ok result =>
        by_cases hc : 0 < info.aiName.length ∧ (getField r info.aiName).toInt = 0
        · simp only [if_pos hc]
          cases result.lastInsertId <;> rfl
        · simp only [if_neg hc]
  · unfold Table.Save
    split
    next h => exact absurd h h1
    next h => exact absurd h h2
    next => rfl

/-- Witness for C3: a one-column table saved under the MySQL, SQLite
and an unknown driver. -/
theorem save_driver_dispatch_witness :
    ((Table.Save (fun _ => .ok "x")
        ⟨⟨fun _ _ => .ok ⟨.ok 1⟩, fun _ _ => .ok [], fun _ _ => .error ErrNoRows⟩, "mysql", "users"⟩
        ⟨["name"], "", [], [], []⟩ (fun _ => .vstr "a")).2 =
      [⟨insertQueryStr "users" (insertColumns ⟨["name"], "", [], [], []⟩ (fun _ => .vstr "a"))
          ++ " ON DUPLICATE KEY UPDATE " ++ setClause ["name"],
        ([some (.vstr "a")] : List Param) ++ ([some (.vstr "a")] : List Param)⟩]) ∧
    (∃ rest,
      insertQueryStr "users" (insertColumns ⟨["name"], "", [], [], []⟩ (fun _ => .vstr "a"))
        = "INSERT INTO" ++ rest ∧
      (Table.Save (fun _ => .ok "x")
        ⟨⟨fun _ _ => .ok ⟨.ok 1⟩, fun _ _ => .ok [], fun _ _ => .error ErrNoRows⟩, "sqlite3", "users"⟩
        ⟨["name"], "", [], [], []⟩ (fun _ => .vstr "a")).2 =
      [⟨"INSERT OR REPLACE INTO" ++ rest, ([some (.vstr "a")] : List Param)⟩]) ∧
    (Table.Save (fun _ => .ok "x")
        ⟨⟨fun _ _ => .ok ⟨.ok 1⟩, fun _ _ => .ok [], fun _ _ => .error ErrNoRows⟩, "postgres", "users"⟩
        ⟨["name"], "", [], [], []⟩ (fun _ => .vstr "a") =
      (.abort ("Save operation is not supported for driver: " ++ "postgres"), [])) := by
  have hM := save_driver_dispatch (fun _ => .ok "x")
    ⟨⟨fun _ _ => .ok ⟨.ok 1⟩, fun _ _ => .ok [], fun _ _ => .error ErrNoRows⟩, "mysql", "users"⟩
    ⟨["name"], "", [], [], []⟩ (fun _ => .vstr "a")
  have hS := save_driver_dispatch (fun _ => .ok "x")
    ⟨⟨fun _ _ => .ok ⟨.ok 1⟩, fun _ _ => .ok [], fun _ _ => .error ErrNoRows⟩, "sqlite3", "users"⟩
    ⟨["name"], "", [], [], []⟩ (fun _ => .vstr "a")
  have hP := save_driver_dispatch (fun _ => .ok "x")
    ⟨⟨fun _ _ => .ok ⟨.ok 1⟩, fun _ _ => .ok [], fun _ _ => .error ErrNoRows⟩, "postgres", "users"⟩
    ⟨["name"], "", [], [], []⟩ (fun _ => .vstr "a")
  refine ⟨?_, ?_, hP.2.2 (by decide) (by decide)⟩
  · exact hM.1 rfl _ ([some (.vstr "a")] : List Param) ([some (.vstr "a")] : List Param) rfl rfl
  · exact hS.2.1 rfl _ ([some (.vstr "a")] : List Param) rfl

/-- C2: `SelectOne` commits to the caller's record only on full
success: any returned error or panic leaves the target exactly the
passed-in record; a zero-row predicate surfaces the distinguished
`sql.ErrNoRows`; and on success the target is the decoded scratch
record (built from the fresh zero instance, independent of the caller's
value). -/
theorem selectOne_no_partial_commit (unmarshal : String → Except String Value)
    (t : Table) (sch : Schema) (r0 : Record) (w : String) (args : List Param) :
    (∀ e, (Table.SelectOne unmarshal t sch r0 w args).out = .fail e →
      (Table.SelectOne unmarshal t sch r0 w args).target = r0) ∧
    (∀ m, (Table.SelectOne unmarshal t sch r0 w args).out = .abort m →
      (Table.SelectOne unmarshal t sch r0 w args).target = r0) ∧
    (bindingsOk sch = true →
      t.exe.queryRow (selQuery t sch.info w) args = .error ErrNoRows →
      (Table.SelectOne unmarshal t sch r0 w args).out = .fail ErrNoRows ∧
      (Table.SelectOne unmarshal t sch r0 w args).target = r0) ∧
    (∀ row rec, bindingsOk sch = true →
      t.exe.queryRow (selQuery t sch.info w) args = .ok row →
      decodeRow unmarshal sch row = .ok rec →
      (Table.SelectOne unmarshal t sch r0 w args).out = .ok () ∧
      (Table.SelectOne unmarshal t sch r0 w args).target = rec) := by
  by_cases hB : bindingsOk sch = true
  · cases hQ : t.exe.queryRow (selQuery t sch.info w) args with
    | error e =>
      have hred : Table.SelectOne unmarshal t sch r0 w args =
          ⟨.fail e, r0, [⟨selQuery t sch.info w, args⟩]⟩ := by
        simp [Table.SelectOne, hB, hQ]
      refine ⟨fun e' _ => by rw [hred], fun m hm => by rw [hred],
        fun _ hnr => ?_, fun row rec _ hrow _ => ?_⟩
      · injection hnr with he
        subst he
        exact ⟨by rw [hred], by rw [hred]⟩
      · exact absurd hrow (by simp)
    | ok row =>
      cases hD : decodeRow unmarshal sch row with
      | ok ev =>
        have hred : Table.SelectOne unmarshal t sch r0 w args =
            ⟨.ok (), ev, [⟨selQuery t sch.info w, args⟩]⟩ := by
          simp [Table.SelectOne, hB, hQ, hD]
        refine ⟨fun e' he' => ?_, fun m hm => ?_, fun _ hnr => ?_,
          fun row' rec _ hrow hrec => ?_⟩
        · rw [hred] at he'
          exact absurd he' (by simp)
        · rw [hred] at hm
          exact absurd hm (by simp)
        · exact absurd hnr (by simp)
        · injection hrow with hr
          subst hr
          rw [hD] at hrec
          injection hrec with hr2
          subst hr2
          exact ⟨by rw [hred], by rw [hred]⟩
      | fail e =>
        have hred : Table.SelectOne unmarshal t sch r0 w args =
            ⟨.fail e, r0, [⟨selQuery t sch.info w, args⟩]⟩ := by
          simp [Table.SelectOne, hB, hQ, hD]
        refine ⟨fun e' _ => by rw [hred], fun m hm => by rw [hred],
          fun _ hnr => absurd hnr (by simp), fun row' rec _ hrow hrec => ?_⟩
        injection hrow with hr
        subst hr
        rw [hD] at hrec
        exact absurd hrec (by simp)
      | abort m =>
        have hred : Table.SelectOne unmarshal t sch r0 w args =
            ⟨.abort m, r0, [⟨selQuery t sch.info w, args⟩]⟩ := by
          simp [Table.SelectOne, hB, hQ, hD]
        refine ⟨fun e' _ => by rw [hred], fun m' hm => by rw [hred],
          fun _ hnr => absurd hnr (by simp), fun row' rec _ hrow hrec => ?_⟩
        injection hrow with hr
        subst hr
        rw [hD] at hrec
        exact absurd hrec (by simp)
  · have hBf : bindingsOk sch = false := by
      revert hB
      cases bindingsOk sch <;> simp
    have hred : Table.SelectOne unmarshal t sch r0 w args =
        ⟨.abort "invalid nullable type", r0, []⟩ := by
      simp [Table.SelectOne, hBf]
    exact ⟨fun e' _ => by rw [hred], fun m hm => by rw [hred],
      fun hB' => absurd hB' hB, fun row rec hB' _ _ => absurd hB' hB⟩

/-- Witness for C2: a one-column table, once against an executor that
reports no rows (not-found propagated, record untouched) and once
against one row (the decoded scratch record committed). -/
theorem selectOne_no_partial_commit_witness :
    ((Table.SelectOne (fun _ => .ok (.vint 0))
        ⟨⟨fun _ _ => .ok ⟨.ok 1⟩, fun _ _ => .ok [], fun _ _ => .error ErrNoRows⟩, "mysql", "users"⟩
        ⟨⟨["name"], "", [], [], []⟩, fun _ => .kstr⟩
        (fun _ => .vstr "old") "id = 1" []).out = .fail ErrNoRows ∧
     (Table.SelectOne (fun _ => .ok (.vint 0))
        ⟨⟨fun _ _ => .ok ⟨.ok 1⟩, fun _ _ => .ok [], fun _ _ => .error ErrNoRows⟩, "mysql", "users"⟩
        ⟨⟨["name"], "", [], [], []⟩, fun _ => .kstr⟩
        (fun _ => .vstr "old") "id = 1" []).target = (fun _ => .vstr "old")) ∧
    ((Table.SelectOne (fun _ => .ok (.vint 0))
        ⟨⟨fun _ _ => .ok ⟨.ok 1⟩, fun _ _ => .ok [],
            fun _ _ => .ok [some (.vstr "bob")]⟩, "mysql", "users"⟩
        ⟨⟨["name"], "", [], [], []⟩, fun _ => .kstr⟩
        (fun _ => .vstr "old") "id = 1" []).out = .ok () ∧
     (Table.SelectOne (fun _ => .ok (.vint 0))
        ⟨⟨fun _ _ => .ok ⟨.ok 1⟩, fun _ _ => .ok [],
            fun _ _ => .ok [some (.vstr "bob")]⟩, "mysql", "users"⟩
        ⟨⟨["name"], "", [], [], []⟩, fun _ => .kstr⟩
        (fun _ => .vstr "old") "id = 1" []).target =
      setField (zeroRecord ⟨⟨["name"], "", [], [], []⟩, fun _ => .kstr⟩) "name" (.vstr "bob")) := by
  have h1 := selectOne_no_partial_commit (fun _ => .ok (.vint 0))
    ⟨⟨fun _ _ => .ok ⟨.ok 1⟩, fun _ _ => .ok [], fun _ _ => .error ErrNoRows⟩, "mysql", "users"⟩
    ⟨⟨["name"], "", [], [], []⟩, fun _ => .kstr⟩
    (fun _ => .vstr "old") "id = 1" []
  have h2 := selectOne_no_partial_commit (fun _ => .ok (.vint 0))
    ⟨⟨fun _ _ => .ok ⟨.ok 1⟩, fun _ _ => .ok [],
        fun _ _ => .ok [some (.vstr "bob")]⟩, "mysql", "users"⟩
    ⟨⟨["name"], "", [], [], []⟩, fun _ => .kstr⟩
    (fun _ => .vstr "old") "id = 1" []
  exact ⟨h1.2.2.1 (by decide) rfl,
    h2.2.2.2 [some (.vstr "bob")]
      (setField (zeroRecord ⟨⟨["name"], "", [], [], []⟩, fun _ => .kstr⟩) "name" (.vstr "bob"))
      (by decide) rfl rfl⟩

/-- C9 (failing evidence): `mysqlSave` reads `result` from the executor
before checking the returned error; with a zero auto-increment field and
a failing `Exec`, `result` is nil (the `database/sql` contract) and
`result.LastInsertId()` panics with a nil dereference instead of the
error being returned. -/
theorem save_exec_error_nil_dereference :
    (Table.Save (fun _ => .ok "x")
      ⟨⟨fun _ _ => .error "connection refused", fun _ _ => .ok [], fun _ _ => .error ErrNoRows⟩,
        "mysql", "users"⟩
      ⟨["id", "name"], "id", ["id"], [], []⟩
      (fun n => if n = "name" then .vstr "a" else .vint 0)).1 =
    .abort "runtime error: invalid memory address or nil pointer dereference" := rfl

/-- The row loop only ever appends: its result on any starting
accumulator is the accumulator followed by the rows it decodes. -/
theorem selectLoop_acc (unmarshal : String → Except String Value) (sch : Schema) :
    ∀ (rows : List (List Param)) (acc : List Record),
    selectLoop unmarshal sch rows acc =
      match selectLoop unmarshal sch rows [] with
      | .ok ds => .ok (acc ++ ds)
      | .fail e => .fail e
      | .abort m => .abort m := by
  intro rows
  induction rows with
  | nil =>
    intro acc
    simp [selectLoop]
  | cons row rest ih =>
    intro acc
    by_cases hB : bindingsOk sch = true
    · cases hd : decodeRow unmarshal sch row with
      | fail e =>
        have h1 : selectLoop unmarshal sch (row :: rest) acc = .fail e := by
          simp [selectLoop, hB, hd]
        have h2 : selectLoop unmarshal sch (row :: rest) [] = .fail e := by
          simp [selectLoop, hB, hd]
        rw [h1, h2]
      | abort m =>
        have h1 : selectLoop unmarshal sch (row :: rest) acc = .abort m := by
          simp [selectLoop, hB, hd]
        have h2 : selectLoop unmarshal sch (row :: rest) [] = .abort m := by
          simp [selectLoop, hB, hd]
        rw [h1, h2]
      | ok rec =>
        have h1 : selectLoop unmarshal sch (row :: rest) acc =
            selectLoop unmarshal sch rest (acc ++ [rec]) := by
          simp [selectLoop, hB, hd]
        have h2 : selectLoop unmarshal sch (row :: rest) [] =
            selectLoop unmarshal sch rest [rec] := by
          simp [selectLoop, hB, hd]
        rw [h1, h2, ih (acc ++ [rec]), ih [rec]]
        cases selectLoop unmarshal sch rest [] <;> simp
    · have hBf : bindingsOk sch = false := by
        revert hB
        cases bindingsOk sch <;> simp
      have h1 : selectLoop unmarshal sch (row :: rest) acc = .abort "invalid nullable type" := by
        simp [selectLoop, hBf]
      have h2 : selectLoop unmarshal sch (row :: rest) [] = .abort "invalid nullable type" := by
        simp [selectLoop, hBf]
      rw [h1, h2]

/-- C6 counterexample to the claim as stated: a successful `Select`
matching zero rows leaves a nil destination slice nil — the allocation
guard in the source tests the pointer (already panicked on nil two
lines up), never the slice, so no allocation happens. -/
theorem select_nil_slice_stays_nil :
    (Table.Select (fun _ => .ok (.vint 0))
      ⟨⟨fun _ _ => .ok ⟨.ok 1⟩, fun _ _ => .ok [], fun _ _ => .error ErrNoRows⟩, "mysql", "users"⟩
      ⟨⟨["name"], "", [], [], []⟩, fun _ => .kstr⟩
      none "id = 1" []).out = .ok () ∧
    (Table.Select (fun _ => .ok (.vint 0))
      ⟨⟨fun _ _ => .ok ⟨.ok 1⟩, fun _ _ => .ok [], fun _ _ => .error ErrNoRows⟩, "mysql", "users"⟩
      ⟨⟨["name"], "", [], [], []⟩, fun _ => .kstr⟩
      none "id = 1" []).slice = none := ⟨rfl, rfl⟩

/-- C6 (amended): on any failure `Select` leaves the caller's slice
exactly as passed; on success each result row is decoded into a fresh
record and appended after the pre-existing elements, a nil slice
becoming non-nil only when at least one row was appended. -/
theorem select_appends_preserving (unmarshal : String → Except String Value)
    (t : Table) (sch : Schema) (s0 : Option (List Record))
    (w : String) (args : List Param) :
    (∀ e, (Table.Select unmarshal t sch s0 w args).out = .fail e →
      (Table.Select unmarshal t sch s0 w args).slice = s0) ∧
    (∀ m, (Table.Select unmarshal t sch s0 w args).out = .abort m →
      (Table.Select unmarshal t sch s0 w args).slice = s0) ∧
    (∀ rows ds, t.exe.query (selQuery t sch.info w) args = .ok rows →
      selectLoop unmarshal sch rows [] = .ok ds →
      (Table.Select unmarshal t sch s0 w args).out = .ok () ∧
      (Table.Select unmarshal t sch s0 w args).slice =
        (match s0, ds with
         | some l, _ => some (l ++ ds)
         | none, [] => none
         | none, _ => some ds)) := by
  cases hQ : t.exe.query (selQuery t sch.info w) args with
  | error e =>
    have hred : Table.Select unmarshal t sch s0 w args =
        ⟨.fail e, s0, [⟨selQuery t sch.info w, args⟩]⟩ := by
      simp [Table.Select, hQ]
    refine ⟨fun e' _ => by rw [hred], fun m _ => by rw [hred],
      fun rows ds hrows _ => ?_⟩
    exact absurd hrows (by simp)
  | ok rows =>
    refine ⟨fun e' he' => ?_, fun m hm => ?_, fun rows' ds hrows hds => ?_⟩
    · cases hL : selectLoop unmarshal sch rows (s0.getD []) with
      | fail e => simp [Table.Select, hQ, hL]
      | abort m => simp [Table.Select, hQ, hL]
      | ok final =>
        exfalso
        have hok : (Table.Select unmarshal t sch s0 w args).out = .ok () := by
          simp only [Table.Select, hQ, hL]
          cases s0 <;> cases final <;> rfl
        rw [hok] at he'
        exact absurd he' (by simp)
    · cases hL : selectLoop unmarshal sch rows (s0.getD []) with
      | fail e => simp [Table.Select, hQ, hL]
      | abort m => simp [Table.Select, hQ, hL]
      | ok final =>
        exfalso
        have hok : (Table.Select unmarshal t sch s0 w args).out = .ok () := by
          simp only [Table.Select, hQ, hL]
          cases s0 <;> cases final <;> rfl
        rw [hok] at hm
        exact absurd hm (by simp)
    · injection hrows with hr
      subst hr
      cases s0 with
      | none =>
        have hL0 : selectLoop unmarshal sch rows ((none : Option (List Record)).getD []) =
            .ok ds := hds
        constructor
        · simp only [Table.Select, hQ, hL0]
          cases ds <;> rfl
        · simp only [Table.Select, hQ, hL0]
          cases ds <;> rfl
      | some l =>
        have hLl : selectLoop unmarshal sch rows ((some l).getD []) = .ok (l ++ ds) := by
          show selectLoop unmarshal sch rows l = .ok (l ++ ds)
          rw [selectLoop_acc unmarshal sch rows l, hds]
        constructor
        · simp only [Table.Select, hQ, hLl]
        · simp only [Table.Select, hQ, hLl]

/-- Witness for the amended C6: a pre-populated slice is appended to,
one decoded row per result row. -/
theorem select_appends_preserving_witness :
    (Table.Select (fun _ => .ok (.vint 0))
      ⟨⟨fun _ _ => .ok ⟨.ok 1⟩, fun _ _ => .ok [[some (.vstr "bob")]],
          fun _ _ => .error ErrNoRows⟩, "mysql", "users"⟩
      ⟨⟨["name"], "", [], [], []⟩, fun _ => .kstr⟩
      (some [(fun _ => Value.vstr "old" : Record)]) "" []).out = .ok () ∧
    (Table.Select (fun _ => .ok (.vint 0))
      ⟨⟨fun _ _ => .ok ⟨.ok 1⟩, fun _ _ => .ok [[some (.vstr "bob")]],
          fun _ _ => .error ErrNoRows⟩, "mysql", "users"⟩
      ⟨⟨["name"], "", [], [], []⟩, fun _ => .kstr⟩
      (some [(fun _ => Value.vstr "old" : Record)]) "" []).slice =
      some (([(fun _ => Value.vstr "old")] : List Record) ++
        [setField (zeroRecord ⟨⟨["name"], "", [], [], []⟩, fun _ => .kstr⟩) "name" (.vstr "bob")]) := by
  have h := select_appends_preserving (fun _ => .ok (.vint 0))
    ⟨⟨fun _ _ => .ok ⟨.ok 1⟩, fun _ _ => .ok [[some (.vstr "bob")]],
        fun _ _ => .error ErrNoRows⟩, "mysql", "users"⟩
    ⟨⟨["name"], "", [], [], []⟩, fun _ => .kstr⟩
    (some [(fun _ => Value.vstr "old" : Record)]) "" []
  exact h.2.2 [[some (.vstr "bob")]]
    [setField (zeroRecord ⟨⟨["name"], "", [], [], []⟩, fun _ => .kstr⟩) "name" (.vstr "bob")]
    rfl rfl

theorem scanRow_keys (sch : Schema) :
    ∀ (l : List (String × Param)) (bs : List (String × Binding)),
    scanRow sch l = .ok bs → bs.map Prod.fst = l.map Prod.fst := by
  intro l
  induction l with
  | nil =>
    intro bs h
    simp only [scanRow, Except.ok.injEq] at h
    subst h
    rfl
  | cons p rest ih =>
    intro bs h
    obtain ⟨n, c⟩ := p
    simp only [scanRow] at h
    cases hsc : scanCell sch n c with
    | error e =>
      rw [hsc] at h
      exact absurd h (by simp)
    | ok b =>
      rw [hsc] at h
      cases hrest : scanRow sch rest with
      | error e =>
        rw [hrest] at h
        exact absurd h (by simp)
      | ok bs' =>
        rw [hrest] at h
        simp only [Except.ok.injEq] at h
        subst h
        simp [ih bs' hrest]

theorem scanRow_find (sch : Schema) (n : String) (c : Param) (b : Binding) :
    ∀ (l : List (String × Param)) (bs : List (String × Binding)),
    scanRow sch l = .ok bs →
    lookupCell l n = some c →
    scanCell sch n c = .ok b →
    lookupBinding bs n = some b := by
  intro l
  induction l with
  | nil =>
    intro bs _ hf _
    simp [lookupCell] at hf
  | cons p rest ih =>
    intro bs h hf hsc
    obtain ⟨m, c0⟩ := p
    simp only [scanRow] at h
    cases hsc0 : scanCell sch m c0 with
    | error e =>
      rw [hsc0] at h
      exact absurd h (by simp)
    | ok b0 =>
      rw [hsc0] at h
      cases hrest : scanRow sch rest with
      | error e =>
        rw [hrest] at h
        exact absurd h (by simp)
      | ok bs' =>
        rw [hrest] at h
        simp only [Except.ok.injEq] at h
        subst h
        by_cases hmn : m = n
        · subst hmn
          simp only [lookupCell, if_pos rfl] at hf
          injection hf with hc0
          subst hc0
          rw [hsc0] at hsc
          injection hsc with hb
          subst hb
          simp [lookupBinding]
        · simp only [lookupCell, if_neg hmn] at hf
          have htail := ih bs' hrest hf hsc
          simp [lookupBinding, hmn, htail]

theorem lookupBinding_unique (n : String) :
    ∀ (bs : List (String × Binding)),
    (bs.map Prod.fst).Nodup →
    ∀ b b', lookupBinding bs n = some b → (n, b') ∈ bs → b' = b := by
  intro bs
  induction bs with
  | nil =>
    intro _ b b' _ hm
    simp at hm
  | cons p rest ih =>
    intro hnd b b' hl hm
    obtain ⟨m, b0⟩ := p
    simp only [List.map_cons, List.nodup_cons] at hnd
    rcases List.mem_cons.mp hm with heq | hmem
    · have hmn : n = m := congrArg Prod.fst heq
      have hb0 : b' = b0 := congrArg Prod.snd heq
      subst hmn
      subst hb0
      have hl2 : b' = b := by
        have hx := hl
        simp [lookupBinding] at hx
        exact hx
      exact hl2
    · by_cases hmn : m = n
      · subst hmn
        exfalso
        apply hnd.1
        exact List.mem_map.mpr ⟨(m, b'), hmem, rfl⟩
      · simp only [lookupBinding, if_neg hmn] at hl
        exact ih hnd.2 b b' hl hmem

theorem applyDirect_preserves (n : String) :
    ∀ (bs : List (String × Binding)) (r : Record),
    (∀ v, ¬ (n, Binding.direct v) ∈ bs) →
    applyDirect bs r n = r n := by
  intro bs
  induction bs with
  | nil =>
    intro r _
    rfl
  | cons p rest ih =>
    intro r h
    obtain ⟨m, b⟩ := p
    have hrest : ∀ v, ¬ (n, Binding.direct v) ∈ rest := by
      intro v hv
      exact h v (List.mem_cons_of_mem _ hv)
    cases b with
    | direct v =>
      have hmn : m ≠ n := by
        intro hc
        subst hc
        exact h v (List.mem_cons_self _ _)
      show applyDirect rest (setField r m v) n = r n
      rw [ih _ hrest]
      simp only [setField]
      rw [if_neg (show ¬ n = m from fun hc => hmn hc.symm)]
    | json data =>
      show applyDirect rest r n = r n
      exact ih r hrest
    | nullable w =>
      show applyDirect rest r n = r n
      exact ih r hrest

theorem applyJson_preserves (unmarshal : String → Except String Value)
    (bs : List (String × Binding)) (n : String) :
    ∀ (jnames : List String) (r r' : Record),
    n ∉ jnames →
    applyJson unmarshal bs jnames r = .ok r' →
    r' n = r n := by
  intro jnames
  induction jnames with
  | nil =>
    intro r r' _ h
    simp only [applyJson, Except.ok.injEq] at h
    rw [h]
  | cons m rest ih =>
    intro r r' hn h
    have hmn : m ≠ n := fun hc => hn (hc ▸ List.mem_cons_self _ _)
    have hnrest : n ∉ rest := fun hc => hn (List.mem_cons_of_mem _ hc)
    simp only [applyJson] at h
    cases hlb : lookupBinding bs m with
    | none =>
      rw [hlb] at h
      exact ih r r' hnrest h
    | some b =>
      cases b with
      | json data =>
        rw [hlb] at h
        have h2 : (match unmarshal data with
            | .error e => (.error e : Except String Record)
            | .ok v => applyJson unmarshal bs rest (setField r m v)) = .ok r' := h
        cases hu : unmarshal data with
        | error e =>
          rw [hu] at h2
          exact absurd h2 (by simp)
        | ok v =>
          rw [hu] at h2
          have := ih _ r' hnrest h2
          rw [this]
          simp only [setField]
          rw [if_neg (show ¬ n = m from fun hc => hmn hc.symm)]
      | direct v =>
        rw [hlb] at h
        exact ih r r' hnrest h
      | nullable w =>
        rw [hlb] at h
        exact ih r r' hnrest h

theorem applyNullable_preserves (bs : List (String × Binding)) (n : String)
    (hlb : lookupBinding bs n = some (.nullable none)) :
    ∀ (nnames : List String) (r r' : Record),
    applyNullable bs nnames r = .ok r' →
    r' n = r n := by
  intro nnames
  induction nnames with
  | nil =>
    intro r r' h
    simp only [applyNullable, Outcome.ok.injEq] at h
    rw [h]
  | cons m rest ih =>
    intro r r' h
    simp only [applyNullable] at h
    by_cases hmn : m = n
    · subst hmn
      rw [hlb] at h
      exact ih r r' h
    · cases hlb2 : lookupBinding bs m with
      | none =>
        rw [hlb2] at h
        exact absurd h (by simp)
      | some b =>
        cases b with
        | nullable w =>
          cases w with
          | none =>
            rw [hlb2] at h
            exact ih r r' h
          | some v =>
            rw [hlb2] at h
            have := ih _ r' h
            rw [this]
            simp only [setField]
            rw [if_neg (show ¬ n = m from fun hc => hmn hc.symm)]
        | direct v =>
          rw [hlb2] at h
          exact absurd h (by simp)
        | json data =>
          rw [hlb2] at h
          exact absurd h (by simp)

/-- The zero value of a kind is a fixpoint of `Value.zeroValue`. -/
theorem zeroOf_zeroValue (k : VKind) : (k.zeroOf).zeroValue = k.zeroOf := by
  cases k <;> rfl

/-- C4: a nullable, non-JSON column whose field is at its kind's zero
value is encoded as SQL NULL, and a fetched row whose cell for that
column is NULL decodes to a record with the field still at that zero
value — the round trip leaves the field unchanged. -/
theorem nullable_zero_roundtrip (marshal : Value → Except String String)
    (unmarshal : String → Except String Value) (sch : Schema) (r : Record)
    (n : String) (row : List Param) (rec : Record)
    (hnj : n ∉ sch.info.jsonNames)
    (hnn : n ∈ sch.info.nullableNames)
    (hz : getField r n = (sch.kind n).zeroOf)
    (hnd : sch.info.names.Nodup)
    (hlen : row.length = sch.info.names.length)
    (hfind : lookupCell (sch.info.names.zip row) n = some none)
    (hdec : decodeRow unmarshal sch row = .ok rec) :
    getFieldValueByName marshal r sch.info n = .ok none ∧
    getField rec n = getField r n := by
  constructor
  · have hcond : getField r n = (getField r n).zeroValue := by
      rw [hz, zeroOf_zeroValue]
    simp only [getFieldValueByName, if_neg hnj]
    rw [if_pos ⟨hnn, hcond⟩]
  · simp only [decodeRow] at hdec
    rw [if_neg (by omega)] at hdec
    cases hsr : scanRow sch (sch.info.names.zip row) with
    | error e =>
      rw [hsr] at hdec
      exact absurd hdec (by simp)
    | ok bs =>
      rw [hsr] at hdec
      have hscc : scanCell sch n none = .ok (.nullable none) := by
        simp [scanCell, if_neg hnj, hnn]
      have hlb : lookupBinding bs n = some (.nullable none) :=
        scanRow_find sch n none (.nullable none) _ bs hsr hfind hscc
      have hkeys : bs.map Prod.fst = sch.info.names := by
        rw [scanRow_keys sch _ bs hsr]
        exact List.map_fst_zip _ _ (by omega)
      have hkeysnd : (bs.map Prod.fst).Nodup := by
        rw [hkeys]
        exact hnd
      have hnodirect : ∀ v, ¬ (n, Binding.direct v) ∈ bs := by
        intro v hv
        have := lookupBinding_unique n bs hkeysnd _ _ hlb hv
        exact absurd this (by simp)
      have hdec2 : (match applyJson unmarshal bs sch.info.jsonNames
            (applyDirect bs (zeroRecord sch)) with
          | .error e => Outcome.fail e
          | .ok r1 => applyNullable bs sch.info.nullableNames r1) = Outcome.ok rec := hdec
      cases haj : applyJson unmarshal bs sch.info.jsonNames (applyDirect bs (zeroRecord sch)) with
      | error e =>
        rw [haj] at hdec2
        exact absurd hdec2 (by simp)
      | ok r1 =>
        rw [haj] at hdec2
        have h3 : rec n = r1 n := applyNullable_preserves bs n hlb _ r1 rec hdec2
        have h2 : r1 n = applyDirect bs (zeroRecord sch) n :=
          applyJson_preserves unmarshal bs n _ _ r1 hnj haj
        have h1 : applyDirect bs (zeroRecord sch) n = zeroRecord sch n :=
          applyDirect_preserves n bs _ hnodirect
        show rec n = r n
        rw [h3, h2, h1, show r n = (sch.kind n).zeroOf from hz]
        rfl

/-- Witness for C4: a single nullable integer column `age`, zero in the
record, NULL in the fetched row. -/
theorem nullable_zero_roundtrip_witness :
    getFieldValueByName (fun _ => .ok "x") (fun _ => Value.vint 0)
      ⟨["age"], "", [], [], ["age"]⟩ "age" = .ok none ∧
    getField (zeroRecord ⟨⟨["age"], "", [], [], ["age"]⟩, fun _ => .kint⟩) "age" =
      getField (fun _ => Value.vint 0) "age" := by
  have h := nullable_zero_roundtrip (fun _ => .ok "x") (fun _ => .ok (.vint 0))
    ⟨⟨["age"], "", [], [], ["age"]⟩, fun _ => .kint⟩
    (fun _ => Value.vint 0) "age" [none]
    (zeroRecord ⟨⟨["age"], "", [], [], ["age"]⟩, fun _ => .kint⟩)
    (by decide) (by decide) rfl (by decide) rfl rfl rfl
  exact h

end Sqlx
